import Mathlib

/-!
Shallow embedding of the expense-tracker server (`src/server.js`) and
verification of its specification.

Modelling conventions:
* JavaScript numbers carrying expense amounts are modelled as `Int`
  (the spec treats amounts as ordinary decimal numbers; no claim here
  depends on fractional or rounding behaviour).
* A stored expense `date` is modelled as a calendar date record
  (year, month 1-12, day); `new Date(...)` comparisons in the window
  filters are modelled at calendar-day granularity, with the lexicographic
  order on (year, month, day) standing for timestamp order.
* Number-to-string conversion (used for the YYYY-MM keys and for the
  `description|category|amount` template keys) is modelled by an explicit
  decimal-digits function, structural in a fuel argument so that it
  reduces by kernel computation.
* JavaScript insertion-ordered objects / Maps are modelled as association
  lists (`List (String × _)`); `Set` of months is modelled as a
  duplicate-free list in insertion order.
* Request handlers that write the store are modelled as functions
  returning (outcome, store-after-request); the store component equals
  the input store exactly when the code does not call `writeExpenses`.
-/

namespace ExpensesApp

/-- Decimal digit characters of a natural number (most significant first),
written with an explicit fuel argument so the recursion is structural and
kernel-reducible. Models JavaScript number-to-string for naturals. -/
def natCharsAux : Nat → Nat → List Char
  | 0, _ => []
  | fuel + 1, n =>
    if n < 10 then [Nat.digitChar n]
    else natCharsAux fuel (n / 10) ++ [Nat.digitChar (n % 10)]

/-- Decimal digit characters of a natural number. -/
def natChars (n : Nat) : List Char := natCharsAux (n + 1) n

/-- JavaScript string conversion of an integer-valued number. -/
def intStr (i : Int) : String :=
  if i < 0 then "-" ++ String.mk (natChars i.natAbs) else String.mk (natChars i.natAbs)

/-- Models `(m).toString().padStart(2, '0')` (server.js, month-key derivation). -/
def pad2 (m : Nat) : String :=
  if (natChars m).length < 2 then String.mk ('0' :: natChars m) else String.mk (natChars m)

/-- A calendar date; `month` is 1-based (as produced by `getMonth() + 1`). -/
structure Date where
  year : Int
  month : Nat
  day : Nat
deriving DecidableEq

/-- Timestamp order on dates, at calendar-day granularity. -/
def Date.leB (a b : Date) : Bool :=
  decide (a.year < b.year ∨ (a.year = b.year ∧
    (a.month < b.month ∨ (a.month = b.month ∧ a.day ≤ b.day))))

/-- The `YYYY-MM` key derived from a date (server.js lines 146, 189, 233). -/
def monthKey (d : Date) : String := intStr d.year ++ "-" ++ pad2 d.month

/-- A stored expense record (§3 of the spec; server.js lines 69-76). -/
structure Expense where
  id : String
  date : Date
  amount : Int
  category : String
  description : String
  notes : String
deriving DecidableEq

/-- The `{description, category, amount}` output shape of the recurring and
tags endpoints (server.js lines 246-252 and 280-284). -/
structure Template where
  description : String
  category : String
  amount : Int
deriving DecidableEq

/-- The composite string key of a template (server.js lines 231, 278):
the fields joined with the delimiter character. -/
def tmplKey (t : Template) : String :=
  t.description ++ "|" ++ t.category ++ "|" ++ intStr t.amount

/-- The template carried by an expense. -/
def templateOf (e : Expense) : Template := ⟨e.description, e.category, e.amount⟩

/-- The grouping key of an expense: the joined string over its template. -/
def templateKey (e : Expense) : String := tmplKey (templateOf e)

/-- Models `new Date(now.getFullYear(), now.getMonth() - numMonths, 1)`
(server.js lines 218, 268): month-level arithmetic with floored
normalization into the year, day pinned to 1. -/
def cutoffDate (now : Date) (n : Nat) : Date :=
  let m : Int := (now.month : Int) - 1 - (n : Int)
  ⟨now.year + m.fdiv 12, (m.fmod 12).toNat + 1, 1⟩

/-- The window filter `expDate >= cutoffDate && expDate <= now`. -/
def inWindow (cutoff now : Date) (e : Expense) : Bool :=
  Date.leB cutoff e.date && Date.leB e.date now

/-- The filtered expense list of the recurring/tags endpoints
(server.js lines 221-224 and 270-273). -/
def recentExpenses (exps : List Expense) (now : Date) (n : Nat) : List Expense :=
  exps.filter (inWindow (cutoffDate now n) now)

/-- Association-list lookup (models JavaScript object / Map indexing by
string key, insertion-ordered). -/
def alookup {α : Type} : List (String × α) → String → Option α
  | [], _ => none
  | (k, v) :: rest, key => if k = key then some v else alookup rest key

/-! ### Monthly report (server.js lines 140-167) -/

/-- A monthly bucket: running total plus per-category totals. -/
structure MonthBucket where
  total : Int
  categories : List (String × Int)
deriving DecidableEq

/-- `categories[cat] += amount`, initializing to 0 on first occurrence. -/
def bumpCat : List (String × Int) → String → Int → List (String × Int)
  | [], c, a => [(c, a)]
  | (k, v) :: rest, c, a =>
    if k = c then (k, v + a) :: rest else (k, v) :: bumpCat rest c a

/-- Accumulate one expense into the monthly-report accumulator. -/
def bumpMonth : List (String × MonthBucket) → String → String → Int → List (String × MonthBucket)
  | [], key, c, a => [(key, ⟨a, bumpCat [] c a⟩)]
  | (k, b) :: rest, key, c, a =>
    if k = key then (k, ⟨b.total + a, bumpCat b.categories c a⟩) :: rest
    else (k, b) :: bumpMonth rest key c a

/-- One iteration of the monthly-report loop (server.js lines 144-156). -/
def monthStep (acc : List (String × MonthBucket)) (e : Expense) : List (String × MonthBucket) :=
  bumpMonth acc (monthKey e.date) e.category e.amount

/-- The unsorted monthly report accumulator (server.js lines 144-156). -/
def rawMonthly (exps : List Expense) : List (String × MonthBucket) :=
  exps.foldl monthStep []

/-- The monthly report: the accumulator re-keyed in ascending key order
(`Object.keys(monthlyReport).sort()`, server.js lines 159-164). -/
def monthlyReport (exps : List Expense) : List (String × MonthBucket) :=
  List.insertionSort (fun p q => p.1 ≤ q.1) (rawMonthly exps)

/-! ### Month comparison (server.js lines 170-205) -/

/-- A comparison bucket: total, per-category totals, and the matching
expense records in original order. -/
structure CompareBucket where
  total : Int
  categories : List (String × Int)
  details : List Expense
deriving DecidableEq

/-- The initial bucket `{ total: 0, categories: {}, details: [] }`. -/
def emptyCB : CompareBucket := ⟨0, [], []⟩

/-- Accumulate one expense into a comparison bucket (server.js lines 194-199). -/
def addCB (b : CompareBucket) (e : Expense) : CompareBucket :=
  ⟨b.total + e.amount, bumpCat b.categories e.category e.amount, b.details ++ [e]⟩

/-- Update the entry of the given key, if present (the `if (currentMonthData)`
guard makes the absent case a no-op). -/
def updateCmp : List (String × CompareBucket) → String → Expense → List (String × CompareBucket)
  | [], _, _ => []
  | (k, b) :: rest, key, e =>
    if k = key then (k, addCB b e) :: rest else (k, b) :: updateCmp rest key e

/-- The comparison data for two (non-empty) month keys: entries initialized
for each requested month, then every expense whose derived key matches one
of the requested months accumulated into it (server.js lines 176-202).
Assigning the same object key twice leaves a single entry, hence the
`m1 = m2` case of the initializer. -/
def cmpStep (m1 m2 : String) (acc : List (String × CompareBucket)) (e : Expense) :
    List (String × CompareBucket) :=
  if monthKey e.date = m1 ∨ monthKey e.date = m2 then updateCmp acc (monthKey e.date) e else acc

/-- The comparison mapping built over the whole expense sequence. -/
def compareData (exps : List Expense) (m1 m2 : String) : List (String × CompareBucket) :=
  exps.foldl (cmpStep m1 m2)
    (if m1 = m2 then [(m1, emptyCB)] else [(m1, emptyCB), (m2, emptyCB)])

/-- The compare endpoint including its parameter validation
(`if (!month1 || !month2)`, server.js lines 171-174): a query parameter is
absent (`none`) or a string, and the empty string is falsy. -/
def compareHandler (exps : List Expense) (m1 m2 : Option String) :
    Except Unit (List (String × CompareBucket)) :=
  match m1, m2 with
  | some s1, some s2 =>
    if s1 = "" ∨ s2 = "" then .error () else .ok (compareData exps s1 s2)
  | _, _ => .error ()

/-- Whether a handler outcome is the InvalidRequest response. -/
def isErr {α : Type} : Except Unit α → Bool
  | .error _ => true
  | .ok _ => false

/-! ### Recurring detection (server.js lines 208-255) and tags (258-289) -/

/-- One entry of `expenseOccurrences`: the retained template (first
occurrence wins) and the set of distinct months, in insertion order. -/
structure Occurrence where
  template : Template
  months : List String
deriving DecidableEq

/-- `Set.add`: append a month unless already present. -/
def addMonth (ms : List String) (m : String) : List String :=
  if m ∈ ms then ms else ms ++ [m]

/-- Accumulate one expense into `expenseOccurrences` (server.js lines 230-240). -/
def insertOcc : List (String × Occurrence) → Expense → List (String × Occurrence)
  | [], e => [(templateKey e, ⟨templateOf e, [monthKey e.date]⟩)]
  | (k, o) :: rest, e =>
    if k = templateKey e then
      (k, ⟨o.template, addMonth o.months (monthKey e.date)⟩) :: rest
    else (k, o) :: insertOcc rest e

/-- The full `expenseOccurrences` object for a (filtered) expense list. -/
def occList (l : List Expense) : List (String × Occurrence) := l.foldl insertOcc []

/-- The recurring endpoint's result: groups that occurred in at least two
distinct months, mapped to `{description, category, amount}`
(server.js lines 243-252). -/
def recurring (exps : List Expense) (now : Date) (n : Nat) : List Template :=
  ((occList (recentExpenses exps now n)).filter (fun p => 2 ≤ p.2.months.length)).map
    (fun p => p.2.template)

/-- Accumulate one expense into `uniqueTags` (server.js lines 277-286):
first occurrence wins. -/
def insertTag : List (String × Template) → Expense → List (String × Template)
  | [], e => [(templateKey e, templateOf e)]
  | (k, t) :: rest, e =>
    if k = templateKey e then (k, t) :: rest else (k, t) :: insertTag rest e

/-- The full `uniqueTags` map for a (filtered) expense list. -/
def tagList (l : List Expense) : List (String × Template) := l.foldl insertTag []

/-- The tags endpoint's result: `Array.from(uniqueTags.values())`. -/
def tags (exps : List Expense) (now : Date) (n : Nat) : List Template :=
  (tagList (recentExpenses exps now n)).map (fun p => p.2)

/-! ### `months` query-parameter validation (server.js lines 209-214, 259-264) -/

/-- Accumulate the value of a maximal leading digit run. -/
def digitsVal : List Char → Nat → Nat
  | [], acc => acc
  | c :: cs, acc => if c.isDigit then digitsVal cs (acc * 10 + (c.toNat - 48)) else acc

/-- Models JavaScript `parseInt(s, 10)`: skip leading whitespace, accept an
optional sign, then read the maximal digit run; `none` when no digit
follows (the NaN case). -/
def jsParseInt (s : String) : Option Int :=
  match s.data.dropWhile Char.isWhitespace with
  | [] => none
  | c :: rest =>
    if c = '-' then
      match rest with
      | c2 :: _ => if c2.isDigit then some (-(digitsVal rest 0 : Int)) else none
      | [] => none
    else if c = '+' then
      match rest with
      | c2 :: _ => if c2.isDigit then some ((digitsVal rest 0 : Int)) else none
      | [] => none
    else if c.isDigit then some ((digitsVal (c :: rest) 0 : Int)) else none

/-- The string actually parsed: `numMonthsParam || defaultValue` (an absent
parameter and the empty string both fall back to the default). -/
def effectiveMonths (p : Option String) (dflt : String) : String :=
  match p with
  | none => dflt
  | some s => if s = "" then dflt else s

/-- The validation test `isNaN(numMonths) || numMonths <= 0` applied to a
parsed string. -/
def rejectCheck (s : String) : Bool :=
  match jsParseInt s with
  | none => true
  | some v => decide (v ≤ 0)

/-- Whether the endpoint rejects the request:
`isNaN(numMonths) || numMonths <= 0`. -/
def windowRejected (p : Option String) (dflt : String) : Bool :=
  rejectCheck (effectiveMonths p dflt)

/-- Modelled from the spec claim wording: a "positive-integer string", read
as a non-empty string of decimal digits denoting a positive value. -/
def specPosIntString (s : String) : Bool :=
  (!s.data.isEmpty) && s.data.all Char.isDigit && decide (0 < digitsVal s.data 0)

/-- The shape of strings the code actually accepts: after leading
whitespace and an optional plus sign, the string starts with a digit and
the maximal digit run has positive value (trailing junk is ignored). -/
def posIntLead (s : String) : Bool :=
  match s.data.dropWhile Char.isWhitespace with
  | [] => false
  | c :: rest =>
    if c = '+' then
      match rest with
      | c2 :: _ => c2.isDigit && decide (0 < digitsVal rest 0)
      | [] => false
    else c.isDigit && decide (0 < digitsVal (c :: rest) 0)

/-! ### PUT /expenses/:id (server.js lines 99-123) -/

/-- Outcome of the update handler. -/
inductive PutOutcome where
  | ok : Expense → PutOutcome
  | invalidRequest
  | notFound
deriving DecidableEq

/-- A partial-update request body. A string field carries JavaScript
truthiness merging (`req.body.x || old`), so an explicitly empty string
keeps the old value; `amount` carries the `parseFloat` result of the
provided value (`some none` = provided but NaN), and `notes` uses an
explicit presence check. -/
structure PutBody where
  date : Option Date
  amount : Option (Option Int)
  category : Option String
  description : Option String
  notes : Option String

/-- Truthiness merge for string fields. -/
def mergeTruthy (v : Option String) (old : String) : String :=
  match v with
  | some s => if s = "" then old else s
  | none => old

/-- The update handler: find the first record with the given id, merge, and
reject with InvalidRequest when the merged amount is NaN (in which case the
store is not rewritten). Returns (outcome, store after the request). -/
def putExpense : List Expense → String → PutBody → PutOutcome × List Expense
  | [], _, _ => (.notFound, [])
  | e :: rest, eid, b =>
    if e.id = eid then
      match (match b.amount with
             | some r => r
             | none => some e.amount : Option Int) with
      | none => (.invalidRequest, e :: rest)
      | some a =>
        let u : Expense :=
          { id := e.id
            date := b.date.getD e.date
            amount := a
            category := mergeTruthy b.category e.category
            description := mergeTruthy b.description e.description
            notes := b.notes.getD e.notes }
        (.ok u, u :: rest)
    else
      let r := putExpense rest eid b
      (r.1, e :: r.2)

/-! ### DELETE /expenses/:id (server.js lines 126-137) -/

/-- Outcome of the delete handler. -/
inductive DeleteOutcome where
  | noContent
  | notFound
deriving DecidableEq

/-- The delete handler: keep the records whose id differs; rewrite the store
only when the length shrank, else answer NotFound leaving the store as is. -/
def deleteExpense (store : List Expense) (eid : String) : DeleteOutcome × List Expense :=
  if (store.filter (fun e => e.id ≠ eid)).length < store.length
  then (.noContent, store.filter (fun e => e.id ≠ eid)) else (.notFound, store)

instance : IsTotal (String × MonthBucket) (fun p q => p.1 ≤ q.1) :=
  ⟨fun a b => le_total a.1 b.1⟩

instance : IsTrans (String × MonthBucket) (fun p q => p.1 ≤ q.1) :=
  ⟨fun _ _ _ hab hbc => le_trans hab hbc⟩

/-- The distinct months, collected in insertion order, of the expenses of a
template group inside a list (first the months already collected). -/
def occFold (init : List String) (l : List Expense) (key : String) : List String :=
  ((l.filter (fun e => templateKey e = key)).map (fun e => monthKey e.date)).foldl addMonth init

/-! ## Helper lemmas: insertion-ordered sets and association lists -/

theorem mem_addMonth {ms : List String} {m x : String} :
    x ∈ addMonth ms m ↔ x ∈ ms ∨ x = m := by
  unfold addMonth
  split
  · next h => constructor
              · exact fun hx => Or.inl hx
              · rintro (hx | rfl) <;> assumption
  · simp

theorem addMonth_nodup {ms : List String} {m : String} (h : ms.Nodup) :
    (addMonth ms m).Nodup := by
  unfold addMonth
  split
  · exact h
  · next hm => simp [List.nodup_append, h, hm]

theorem addMonth_toFinset (ms : List String) (m : String) :
    (addMonth ms m).toFinset = insert m ms.toFinset := by
  ext x
  simp only [List.mem_toFinset, mem_addMonth, Finset.mem_insert]
  tauto

theorem foldl_addMonth_nodup :
    ∀ (ms : List String) (init : List String), init.Nodup → (ms.foldl addMonth init).Nodup
  | [], _, h => h
  | m :: ms, init, h => foldl_addMonth_nodup ms (addMonth init m) (addMonth_nodup h)

theorem foldl_addMonth_toFinset :
    ∀ (ms : List String) (init : List String),
      (ms.foldl addMonth init).toFinset = init.toFinset ∪ ms.toFinset
  | [], init => by simp
  | m :: ms, init => by
    rw [List.foldl_cons, foldl_addMonth_toFinset ms (addMonth init m), addMonth_toFinset]
    ext x
    simp only [Finset.mem_union, Finset.mem_insert, List.mem_toFinset, List.mem_cons]
    tauto

theorem alookup_mem {α : Type} :
    ∀ {acc : List (String × α)} {k : String} {v : α},
      alookup acc k = some v → (k, v) ∈ acc
  | [], _, _, h => by simp [alookup] at h
  | (k', v') :: rest, k, v, h => by
    by_cases hk : k' = k
    · subst hk
      simp [alookup] at h
      subst h
      exact List.mem_cons_self _ _
    · simp [alookup, hk] at h
      exact List.mem_cons_of_mem _ (alookup_mem h)

theorem exists_mem_iff_alookup {α : Type} (P : α → Prop) :
    ∀ {acc : List (String × α)}, (acc.map Prod.fst).Nodup → ∀ {k : String},
      ((∃ p ∈ acc, p.1 = k ∧ P p.2) ↔ (∃ v, alookup acc k = some v ∧ P v))
  | [], _, k => by simp [alookup]
  | (k', v') :: rest, hnd, k => by
    simp only [List.map_cons, List.nodup_cons] at hnd
    by_cases hk : k' = k
    · subst hk
      simp only [alookup, if_pos rfl]
      constructor
      · rintro ⟨p, hp, hpk, hP⟩
        rcases List.mem_cons.mp hp with rfl | hp'
        · exact ⟨v', rfl, hP⟩
        · exact absurd (hpk ▸ List.mem_map_of_mem Prod.fst hp') hnd.1
      · rintro ⟨v, hv, hP⟩
        obtain rfl : v' = v := by simpa using hv
        exact ⟨(k', v'), List.mem_cons_self _ _, rfl, hP⟩
    · simp only [alookup, if_neg hk]
      rw [← exists_mem_iff_alookup P hnd.2 (k := k)]
      constructor
      · rintro ⟨p, hp, hpk, hP⟩
        rcases List.mem_cons.mp hp with rfl | hp'
        · exact absurd hpk hk
        · exact ⟨p, hp', hpk, hP⟩
      · rintro ⟨p, hp, hpk, hP⟩
        exact ⟨p, List.mem_cons_of_mem _ hp, hpk, hP⟩

/-! ## Helper lemmas: the occurrences accumulator -/

theorem tmplKey_templateOf (e : Expense) : tmplKey (templateOf e) = templateKey e := rfl

theorem alookup_insertOcc :
    ∀ (acc : List (String × Occurrence)) (e : Expense) (key : String),
      alookup (insertOcc acc e) key =
        if templateKey e = key then
          match alookup acc key with
          | some o => some ⟨o.template, addMonth o.months (monthKey e.date)⟩
          | none => some ⟨templateOf e, [monthKey e.date]⟩
        else alookup acc key
  | [], e, key => by
    by_cases hk : templateKey e = key <;> simp [insertOcc, alookup, hk]
  | (k', o') :: rest, e, key => by
    by_cases h1 : k' = templateKey e
    · by_cases h2 : k' = key
      · have h3 : templateKey e = key := h1 ▸ h2
        simp [insertOcc, alookup, h1, h2, h3]
      · have h3 : ¬ templateKey e = key := fun h => h2 (h1.trans h)
        simp [insertOcc, alookup, h1, h2, h3]
    · by_cases h2 : k' = key
      · have h3 : ¬ templateKey e = key := fun h => h1 (h2.trans h.symm)
        have h4 : ¬ key = templateKey e := fun h => h1 (h2.trans h)
        simp [insertOcc, alookup, h1, h2, h3, h4]
      · simp [insertOcc, alookup, h1, h2, alookup_insertOcc rest e key]

theorem occFold_nil (init : List String) (key : String) : occFold init [] key = init := rfl

theorem occFold_cons_eq {e : Expense} {key : String} (h : templateKey e = key)
    (init : List String) (l : List Expense) :
    occFold init (e :: l) key = occFold (addMonth init (monthKey e.date)) l key := by
  simp [occFold, List.filter_cons, h]

theorem occFold_cons_ne {e : Expense} {key : String} (h : ¬ templateKey e = key)
    (init : List String) (l : List Expense) :
    occFold init (e :: l) key = occFold init l key := by
  simp [occFold, List.filter_cons, h]

theorem alookup_occ_foldl :
    ∀ (l : List Expense) (acc : List (String × Occurrence)) (key : String),
      alookup (l.foldl insertOcc acc) key =
        match alookup acc key with
        | some o => some ⟨o.template, occFold o.months l key⟩
        | none =>
          match l.filter (fun e => templateKey e = key) with
          | [] => none
          | e :: _ => some ⟨templateOf e, occFold [] l key⟩
  | [], acc, key => by
    cases h : alookup acc key <;> simp [occFold, h]
  | e :: l, acc, key => by
    rw [List.foldl_cons, alookup_occ_foldl l (insertOcc acc e) key, alookup_insertOcc]
    by_cases hk : templateKey e = key
    · rw [if_pos hk]
      cases h : alookup acc key with
      | some o =>
        simp only [h, occFold_cons_eq hk]
      | none =>
        simp only [h, List.filter_cons, hk]
        have : ([monthKey e.date] : List String) = addMonth [] (monthKey e.date) := rfl
        rw [occFold_cons_eq hk, this]
        simp [decide_eq_true_eq, hk]
    · rw [if_neg hk]
      cases h : alookup acc key with
      | some o => simp only [h, occFold_cons_ne hk]
      | none =>
        simp only [h, List.filter_cons]
        rw [occFold_cons_ne hk]
        simp [hk]

theorem map_fst_insertOcc :
    ∀ (acc : List (String × Occurrence)) (e : Expense),
      (insertOcc acc e).map Prod.fst = addMonth (acc.map Prod.fst) (templateKey e)
  | [], e => rfl
  | (k', o') :: rest, e => by
    by_cases h1 : k' = templateKey e
    · subst h1
      simp [insertOcc, addMonth]
    · have h2 : templateKey e ∈ k' :: rest.map Prod.fst ↔ templateKey e ∈ rest.map Prod.fst := by
        simp [Ne.symm h1]
      simp only [insertOcc, if_neg h1, List.map_cons, map_fst_insertOcc rest e, addMonth, h2]
      split <;> simp

theorem occ_foldl_fst_nodup :
    ∀ (l : List Expense) (acc : List (String × Occurrence)),
      (acc.map Prod.fst).Nodup → ((l.foldl insertOcc acc).map Prod.fst).Nodup
  | [], _, h => h
  | e :: l, acc, h => by
    rw [List.foldl_cons]
    exact occ_foldl_fst_nodup l (insertOcc acc e) (by rw [map_fst_insertOcc]; exact addMonth_nodup h)

theorem occ_foldl_key_inv :
    ∀ (l : List Expense) (acc : List (String × Occurrence)),
      (∀ p ∈ acc, tmplKey p.2.template = p.1) →
      ∀ p ∈ l.foldl insertOcc acc, tmplKey p.2.template = p.1 := by
  have step : ∀ (acc : List (String × Occurrence)) (e : Expense),
      (∀ p ∈ acc, tmplKey p.2.template = p.1) →
      ∀ p ∈ insertOcc acc e, tmplKey p.2.template = p.1 := by
    intro acc e
    induction acc with
    | nil =>
      intro _ p hp
      simp only [insertOcc, List.mem_singleton] at hp
      subst hp
      exact tmplKey_templateOf e
    | cons hd tl ih =>
      intro hinv p hp
      obtain ⟨k', o'⟩ := hd
      by_cases h1 : k' = templateKey e
      · simp only [insertOcc, if_pos h1, List.mem_cons] at hp
        rcases hp with rfl | hp'
        · exact hinv (k', o') (List.mem_cons_self _ _)
        · exact hinv p (List.mem_cons_of_mem _ hp')
      · simp only [insertOcc, if_neg h1, List.mem_cons] at hp
        rcases hp with rfl | hp'
        · exact hinv (k', o') (List.mem_cons_self _ _)
        · exact ih (fun q hq => hinv q (List.mem_cons_of_mem _ hq)) p hp'
  intro l
  induction l with
  | nil => intro acc h; exact h
  | cons e l ih =>
    intro acc h
    rw [List.foldl_cons]
    exact ih (insertOcc acc e) (step acc e h)

/-! ## Helper lemmas: the unique-tags accumulator -/

theorem alookup_insertTag :
    ∀ (acc : List (String × Template)) (e : Expense) (key : String),
      alookup (insertTag acc e) key =
        if templateKey e = key then
          match alookup acc key with
          | some t => some t
          | none => some (templateOf e)
        else alookup acc key
  | [], e, key => by
    by_cases hk : templateKey e = key <;> simp [insertTag, alookup, hk]
  | (k', t') :: rest, e, key => by
    by_cases h1 : k' = templateKey e
    · by_cases h2 : k' = key
      · have h3 : templateKey e = key := h1 ▸ h2
        simp [insertTag, alookup, h1, h2, h3]
      · have h3 : ¬ templateKey e = key := fun h => h2 (h1.trans h)
        simp [insertTag, alookup, h1, h2, h3]
    · by_cases h2 : k' = key
      · have h3 : ¬ templateKey e = key := fun h => h1 (h2.trans h.symm)
        have h4 : ¬ key = templateKey e := fun h => h1 (h2.trans h)
        simp [insertTag, alookup, h1, h2, h3, h4]
      · simp [insertTag, alookup, h1, h2, alookup_insertTag rest e key]

theorem alookup_tag_foldl :
    ∀ (l : List Expense) (acc : List (String × Template)) (key : String),
      alookup (l.foldl insertTag acc) key =
        match alookup acc key with
        | some t => some t
        | none =>
          match l.filter (fun e => templateKey e = key) with
          | [] => none
          | e :: _ => some (templateOf e)
  | [], acc, key => by
    cases h : alookup acc key <;> simp [h]
  | e :: l, acc, key => by
    rw [List.foldl_cons, alookup_tag_foldl l (insertTag acc e) key, alookup_insertTag]
    by_cases hk : templateKey e = key
    · rw [if_pos hk]
      cases h : alookup acc key with
      | some t => simp only [h]
      | none => simp [h, List.filter_cons, hk]
    · rw [if_neg hk]
      cases h : alookup acc key with
      | some t => simp only [h]
      | none => simp [h, List.filter_cons, hk]

theorem map_fst_insertTag :
    ∀ (acc : List (String × Template)) (e : Expense),
      (insertTag acc e).map Prod.fst = addMonth (acc.map Prod.fst) (templateKey e)
  | [], e => rfl
  | (k', t') :: rest, e => by
    by_cases h1 : k' = templateKey e
    · subst h1
      simp [insertTag, addMonth]
    · have h2 : templateKey e ∈ k' :: rest.map Prod.fst ↔ templateKey e ∈ rest.map Prod.fst := by
        simp [Ne.symm h1]
      simp only [insertTag, if_neg h1, List.map_cons, map_fst_insertTag rest e, addMonth, h2]
      split <;> simp

theorem map_fst_tag_foldl :
    ∀ (l : List Expense) (acc : List (String × Template)),
      (l.foldl insertTag acc).map Prod.fst =
        (l.map templateKey).foldl addMonth (acc.map Prod.fst)
  | [], _ => rfl
  | e :: l, acc => by
    rw [List.foldl_cons, List.map_cons, List.foldl_cons,
      map_fst_tag_foldl l (insertTag acc e), map_fst_insertTag]

theorem tag_foldl_key_inv :
    ∀ (l : List Expense) (acc : List (String × Template)),
      (∀ p ∈ acc, tmplKey p.2 = p.1) →
      ∀ p ∈ l.foldl insertTag acc, tmplKey p.2 = p.1 := by
  have step : ∀ (acc : List (String × Template)) (e : Expense),
      (∀ p ∈ acc, tmplKey p.2 = p.1) →
      ∀ p ∈ insertTag acc e, tmplKey p.2 = p.1 := by
    intro acc e
    induction acc with
    | nil =>
      intro _ p hp
      simp only [insertTag, List.mem_singleton] at hp
      subst hp
      exact tmplKey_templateOf e
    | cons hd tl ih =>
      intro hinv p hp
      obtain ⟨k', t'⟩ := hd
      by_cases h1 : k' = templateKey e
      · simp only [insertTag, if_pos h1, List.mem_cons] at hp
        rcases hp with rfl | hp'
        · exact hinv (k', t') (List.mem_cons_self _ _)
        · exact hinv p (List.mem_cons_of_mem _ hp')
      · simp only [insertTag, if_neg h1, List.mem_cons] at hp
        rcases hp with rfl | hp'
        · exact hinv (k', t') (List.mem_cons_self _ _)
        · exact ih (fun q hq => hinv q (List.mem_cons_of_mem _ hq)) p hp'
  intro l
  induction l with
  | nil => intro acc h; exact h
  | cons e l ih =>
    intro acc h
    rw [List.foldl_cons]
    exact ih (insertTag acc e) (step acc e h)

theorem map_tmplKey_tags (exps : List Expense) (now : Date) (n : Nat) :
    (tags exps now n).map tmplKey =
      ((recentExpenses exps now n).map templateKey).foldl addMonth [] := by
  have hinv : ∀ p ∈ tagList (recentExpenses exps now n), tmplKey p.2 = p.1 :=
    tag_foldl_key_inv _ [] (by simp)
  calc (tags exps now n).map tmplKey
      = (tagList (recentExpenses exps now n)).map (fun p => tmplKey p.2) := by
        rw [tags, List.map_map]
        rfl
    _ = (tagList (recentExpenses exps now n)).map Prod.fst :=
        List.map_congr_left hinv
    _ = ((recentExpenses exps now n).map templateKey).foldl addMonth [] := by
        rw [tagList, map_fst_tag_foldl]
        rfl

/-! ## Claim C1 -/

/-- C1: for every expense sequence and window, a template group is in the
recurring result (an entry whose joined key is `k` exists) iff the in-window
expenses of the group keyed `k` occurred in at least 2 distinct `YYYY-MM`
months. The entries are values of `Template`, which carries exactly the
fields description, category and amount. -/
theorem recurring_mem_iff_two_distinct_months
    (exps : List Expense) (now : Date) (n : Nat) (k : String) :
    (∃ t ∈ recurring exps now n, tmplKey t = k) ↔
      2 ≤ (((recentExpenses exps now n).filter (fun e => templateKey e = k)).map
            (fun e => monthKey e.date)).toFinset.card := by
  classical
  have hnd : ((occList (recentExpenses exps now n)).map Prod.fst).Nodup :=
    occ_foldl_fst_nodup _ [] (by simp)
  have hinv : ∀ p ∈ occList (recentExpenses exps now n), tmplKey p.2.template = p.1 :=
    occ_foldl_key_inv _ [] (by simp)
  have h1 : (∃ t ∈ recurring exps now n, tmplKey t = k) ↔
      ∃ p ∈ occList (recentExpenses exps now n), p.1 = k ∧ 2 ≤ p.2.months.length := by
    constructor
    · rintro ⟨t, ht, hk⟩
      simp only [recurring, List.mem_map, List.mem_filter, decide_eq_true_eq] at ht
      obtain ⟨p, ⟨hp, hlen⟩, rfl⟩ := ht
      exact ⟨p, hp, (hinv p hp).symm.trans hk, hlen⟩
    · rintro ⟨p, hp, hpk, hlen⟩
      refine ⟨p.2.template, ?_, (hinv p hp).trans hpk⟩
      simp only [recurring, List.mem_map, List.mem_filter, decide_eq_true_eq]
      exact ⟨p, ⟨hp, hlen⟩, rfl⟩
  rw [h1, exists_mem_iff_alookup (fun o => 2 ≤ o.months.length) hnd]
  have h2 := alookup_occ_foldl (recentExpenses exps now n) [] k
  simp only [alookup] at h2
  cases hf : (recentExpenses exps now n).filter (fun e => templateKey e = k) with
  | nil =>
    rw [hf] at h2
    simp [occList, h2, hf]
  | cons e es =>
    rw [hf] at h2
    replace h2 : alookup (List.foldl insertOcc [] (recentExpenses exps now n)) k =
        some ⟨templateOf e, occFold [] (recentExpenses exps now n) k⟩ := h2
    have hnodup : (occFold [] (recentExpenses exps now n) k).Nodup :=
      foldl_addMonth_nodup _ [] List.nodup_nil
    have hcard : (occFold [] (recentExpenses exps now n) k).toFinset.card =
        (occFold [] (recentExpenses exps now n) k).length :=
      List.toFinset_card_of_nodup hnodup
    have hfin : (occFold [] (recentExpenses exps now n) k).toFinset =
        ((e :: es).map (fun e => monthKey e.date)).toFinset := by
      rw [occFold, hf, foldl_addMonth_toFinset]
      simp
    show (∃ v, alookup (occList (recentExpenses exps now n)) k = some v ∧
        2 ≤ v.months.length) ↔ _
    rw [occList, h2]
    simp only [Option.some.injEq, exists_eq_left']
    rw [← hcard, hfin]

/-! ## Claim C7 -/

/-- C7: with the same window and the same moment, the tags result has no
duplicate template, and every template in the recurring result also appears
in the tags result. -/
theorem tags_nodup_and_superset_of_recurring
    (exps : List Expense) (now : Date) (n : Nat) :
    (tags exps now n).Nodup ∧
      ∀ t ∈ recurring exps now n, t ∈ tags exps now n := by
  classical
  constructor
  · have hnd : ((tags exps now n).map tmplKey).Nodup := by
      rw [map_tmplKey_tags]
      exact foldl_addMonth_nodup _ [] List.nodup_nil
    exact hnd.of_map tmplKey
  · intro t ht
    simp only [recurring, List.mem_map, List.mem_filter, decide_eq_true_eq] at ht
    obtain ⟨p, ⟨hp, hlen⟩, rfl⟩ := ht
    have hnd : ((occList (recentExpenses exps now n)).map Prod.fst).Nodup :=
      occ_foldl_fst_nodup _ [] (by simp)
    have hlook : alookup (occList (recentExpenses exps now n)) p.1 = some p.2 := by
      have := (exists_mem_iff_alookup (fun o => o = p.2) hnd (k := p.1)).mp
        ⟨p, hp, rfl, rfl⟩
      obtain ⟨v, hv, rfl⟩ := this
      exact hv
    have h2 := alookup_occ_foldl (recentExpenses exps now n) [] p.1
    simp only [alookup] at h2
    rw [occList] at hlook
    rw [hlook] at h2
    cases hf : (recentExpenses exps now n).filter (fun e => templateKey e = p.1) with
    | nil => rw [hf] at h2; exact absurd h2 (by simp)
    | cons e es =>
      rw [hf] at h2
      replace h2 : (some p.2 : Option Occurrence) =
          some ⟨templateOf e, occFold [] (recentExpenses exps now n) p.1⟩ := h2
      have hpe : p.2 = ⟨templateOf e, occFold [] (recentExpenses exps now n) p.1⟩ := by
        simpa using h2
      have h3 := alookup_tag_foldl (recentExpenses exps now n) [] p.1
      simp only [alookup, hf] at h3
      have hmem : (p.1, templateOf e) ∈ tagList (recentExpenses exps now n) :=
        alookup_mem h3
      have : templateOf e ∈ tags exps now n := by
        rw [tags]
        exact List.mem_map_of_mem (fun q => q.2) hmem
      rw [hpe]
      exact this

/-! ## Claim C4: counterexample and amended form -/

/-- C4 fails on the code: the grouping key is the delimiter-joined string,
so two expenses with componentwise-distinct (description, category, amount)
triples collapse into a single group when a field contains the delimiter.
Here both expenses have key `a|b|c|1` and the tags endpoint returns a
single merged entry. -/
theorem template_grouping_counterexample :
    templateKey ⟨"1", ⟨2024, 1, 5⟩, 1, "c", "a|b", ""⟩ =
      templateKey ⟨"2", ⟨2024, 2, 5⟩, 1, "b|c", "a", ""⟩ ∧
    templateOf ⟨"1", ⟨2024, 1, 5⟩, 1, "c", "a|b", ""⟩ ≠
      templateOf ⟨"2", ⟨2024, 2, 5⟩, 1, "b|c", "a", ""⟩ ∧
    tags [⟨"1", ⟨2024, 1, 5⟩, 1, "c", "a|b", ""⟩,
          ⟨"2", ⟨2024, 2, 5⟩, 1, "b|c", "a", ""⟩] ⟨2024, 3, 15⟩ 3 =
      [⟨"a|b", "c", 1⟩] := by decide

/-- C4 amended: recurring detection and tag extraction group in-window
expenses by the joined string `description|category|amount`, and one group
exists per distinct joined key (distinct triples whose joined strings
collide are merged): the tag entries' keys are exactly the distinct keys of
the in-window expenses, with no key repeated. -/
theorem tags_group_exactly_by_joined_key
    (exps : List Expense) (now : Date) (n : Nat) :
    ((tags exps now n).map tmplKey).toFinset =
      ((recentExpenses exps now n).map templateKey).toFinset ∧
    ((tags exps now n).map tmplKey).Nodup := by
  constructor
  · rw [map_tmplKey_tags, foldl_addMonth_toFinset]
    simp
  · rw [map_tmplKey_tags]
    exact foldl_addMonth_nodup _ [] List.nodup_nil

/-! ## Claim C2 -/

theorem bumpMonth_total_sum :
    ∀ (acc : List (String × MonthBucket)) (key c : String) (a : Int),
      ((bumpMonth acc key c a).map (fun p => p.2.total)).sum =
        (acc.map (fun p => p.2.total)).sum + a
  | [], key, c, a => by simp [bumpMonth]
  | (k, b) :: rest, key, c, a => by
    by_cases h : k = key
    · simp only [bumpMonth, if_pos h, List.map_cons, List.sum_cons]
      omega
    · simp only [bumpMonth, if_neg h, List.map_cons, List.sum_cons,
        bumpMonth_total_sum rest key c a]
      omega

theorem monthStep_foldl_total_sum :
    ∀ (l : List Expense) (acc : List (String × MonthBucket)),
      ((l.foldl monthStep acc).map (fun p => p.2.total)).sum =
        (acc.map (fun p => p.2.total)).sum + (l.map (fun e => e.amount)).sum
  | [], acc => by simp
  | e :: l, acc => by
    rw [List.foldl_cons, monthStep_foldl_total_sum l (monthStep acc e)]
    show ((bumpMonth acc (monthKey e.date) e.category e.amount).map
        (fun p => p.2.total)).sum + _ = _
    rw [bumpMonth_total_sum]
    simp only [List.map_cons, List.sum_cons]
    omega

/-- C2: the sum of the monthly report's bucket totals equals the sum of all
expense amounts (every modelled date is a valid calendar date, so every
expense is covered by some `YYYY-MM` key). -/
theorem monthly_totals_sum_eq_amounts_sum (exps : List Expense) :
    ((monthlyReport exps).map (fun p => p.2.total)).sum =
      (exps.map (fun e => e.amount)).sum := by
  have hperm : List.Perm (monthlyReport exps) (rawMonthly exps) :=
    List.perm_insertionSort _ _
  rw [(hperm.map (fun p => p.2.total)).sum_eq, rawMonthly, monthStep_foldl_total_sum]
  simp

/-! ## Claims C5 and C8 -/

theorem map_fst_updateCmp :
    ∀ (acc : List (String × CompareBucket)) (key : String) (e : Expense),
      (updateCmp acc key e).map Prod.fst = acc.map Prod.fst
  | [], _, _ => rfl
  | (k, b) :: rest, key, e => by
    by_cases h : k = key <;> simp [updateCmp, h, map_fst_updateCmp rest key e]

theorem alookup_updateCmp_ne :
    ∀ (acc : List (String × CompareBucket)) (key : String) (e : Expense) (m : String),
      key ≠ m → alookup (updateCmp acc key e) m = alookup acc m
  | [], _, _, _, _ => rfl
  | (k, b) :: rest, key, e, m, h => by
    by_cases h1 : k = key
    · subst h1
      simp [updateCmp, alookup, h]
    · by_cases h2 : k = m <;>
        simp [updateCmp, alookup, h1, h2, Ne.symm h,
          alookup_updateCmp_ne rest key e m h]

theorem cmpStep_foldl_fst (m1 m2 : String) :
    ∀ (l : List Expense) (acc : List (String × CompareBucket)),
      ((l.foldl (cmpStep m1 m2) acc).map Prod.fst) = acc.map Prod.fst
  | [], _ => rfl
  | e :: l, acc => by
    rw [List.foldl_cons, cmpStep_foldl_fst m1 m2 l (cmpStep m1 m2 acc e)]
    show ((if monthKey e.date = m1 ∨ monthKey e.date = m2
        then updateCmp acc (monthKey e.date) e else acc).map Prod.fst) = _
    split
    · exact map_fst_updateCmp acc (monthKey e.date) e
    · rfl

theorem cmpStep_foldl_lookup (m1 m2 : String) :
    ∀ (l : List Expense) (acc : List (String × CompareBucket)) (m : String),
      (∀ e ∈ l, monthKey e.date ≠ m) →
      alookup (l.foldl (cmpStep m1 m2) acc) m = alookup acc m
  | [], _, _, _ => rfl
  | e :: l, acc, m, h => by
    rw [List.foldl_cons, cmpStep_foldl_lookup m1 m2 l (cmpStep m1 m2 acc e) m
      (fun e' he' => h e' (List.mem_cons_of_mem _ he'))]
    show alookup (if monthKey e.date = m1 ∨ monthKey e.date = m2
        then updateCmp acc (monthKey e.date) e else acc) m = _
    split
    · exact alookup_updateCmp_ne acc (monthKey e.date) e m (h e (List.mem_cons_self _ _))
    · rfl

/-- C5: for non-empty month keys the comparison succeeds, its output has
exactly the requested keys (one when the two coincide), and a requested
month in which no expense falls is bound to the initial bucket
`{total := 0, categories := [], details := []}`. -/
theorem compare_keys_exact_and_empty_buckets
    (exps : List Expense) (s1 s2 : String) (h1 : s1 ≠ "") (h2 : s2 ≠ "") :
    compareHandler exps (some s1) (some s2) = .ok (compareData exps s1 s2) ∧
    (compareData exps s1 s2).map Prod.fst = (if s1 = s2 then [s1] else [s1, s2]) ∧
    ∀ m, (m = s1 ∨ m = s2) → (∀ e ∈ exps, monthKey e.date ≠ m) →
      alookup (compareData exps s1 s2) m = some emptyCB := by
  refine ⟨?_, ?_, ?_⟩
  · simp [compareHandler, h1, h2]
  · rw [compareData, cmpStep_foldl_fst s1 s2]
    by_cases hs : s1 = s2 <;> simp [hs]
  · intro m hm hno
    rw [compareData, cmpStep_foldl_lookup s1 s2 exps _ m hno]
    rcases hm with rfl | rfl
    · by_cases hs : m = s2 <;> simp [alookup, hs]
    · by_cases hs : s1 = m <;> simp [alookup, hs]

/-- Witness for C5 at a concrete instance: no expenses, distinct months. -/
theorem compare_keys_witness :
    compareHandler [] (some "2024-01") (some "2024-09") =
      .ok (compareData [] "2024-01" "2024-09") ∧
    (compareData [] "2024-01" "2024-09").map Prod.fst =
      (if "2024-01" = "2024-09" then ["2024-01"] else ["2024-01", "2024-09"]) ∧
    ∀ m, (m = "2024-01" ∨ m = "2024-09") →
      (∀ e ∈ ([] : List Expense), monthKey e.date ≠ m) →
      alookup (compareData [] "2024-01" "2024-09") m = some emptyCB :=
  compare_keys_exact_and_empty_buckets [] "2024-01" "2024-09"
    (by decide) (by decide)

/-- C8: the comparison fails with InvalidRequest iff a month parameter is
missing or empty; with both non-empty it succeeds on any expense data. -/
theorem compare_invalid_iff_missing_month
    (exps : List Expense) (m1 m2 : Option String) :
    isErr (compareHandler exps m1 m2) = true ↔
      (m1 = none ∨ m1 = some "" ∨ m2 = none ∨ m2 = some "") := by
  cases m1 with
  | none => simp [compareHandler, isErr]
  | some s1 =>
    cases m2 with
    | none => simp [compareHandler, isErr]
    | some s2 =>
      by_cases hc : s1 = "" ∨ s2 = ""
      · simp [compareHandler, isErr, hc]
      · simp [compareHandler, isErr, hc]

/-! ## Claim C9 -/

/-- C9: an update addressed to an existing id whose provided amount parses
to NaN fails with InvalidRequest and leaves the stored collection exactly
as it was. -/
theorem put_invalid_amount_preserves_store :
    ∀ (store : List Expense) (eid : String) (b : PutBody),
      (∃ e ∈ store, e.id = eid) → b.amount = some none →
      putExpense store eid b = (.invalidRequest, store)
  | [], _, _, hex, _ => by simp at hex
  | e :: rest, eid, b, hex, hamt => by
    by_cases he : e.id = eid
    · simp [putExpense, he, hamt]
    · have hex' : ∃ e' ∈ rest, e'.id = eid := by
        obtain ⟨e', he', hid⟩ := hex
        rcases List.mem_cons.mp he' with rfl | h'
        · exact absurd hid he
        · exact ⟨e', h', hid⟩
      have hrec := put_invalid_amount_preserves_store rest eid b hex' hamt
      simp [putExpense, he, hrec]

/-- Witness for C9 at a concrete store and request body. -/
theorem put_invalid_amount_witness :
    putExpense [⟨"1", ⟨2024, 1, 5⟩, 10, "Food", "Coffee", ""⟩] "1"
        ⟨none, some none, none, none, none⟩ =
      (.invalidRequest, [⟨"1", ⟨2024, 1, 5⟩, 10, "Food", "Coffee", ""⟩]) :=
  put_invalid_amount_preserves_store _ _ _
    ⟨_, List.mem_singleton_self _, rfl⟩ rfl

/-! ## Claim C10 -/

/-- C10: delete removes exactly the records with the given id, preserves
the relative order of the rest (the result is a sublist of the store),
answers NotFound iff nothing matched, and in that case does not rewrite
the collection. -/
theorem delete_removes_all_matches (store : List Expense) (eid : String) :
    ((deleteExpense store eid).1 = .notFound ↔ ∀ e ∈ store, e.id ≠ eid) ∧
    ((deleteExpense store eid).1 = .notFound → (deleteExpense store eid).2 = store) ∧
    ((deleteExpense store eid).2.Sublist store) ∧
    (∀ e ∈ store, (e ∈ (deleteExpense store eid).2 ↔ e.id ≠ eid)) := by
  classical
  have hsub : (store.filter (fun e => e.id ≠ eid)).Sublist store := List.filter_sublist store
  have hiff : store.filter (fun e => e.id ≠ eid) = store ↔ ∀ e ∈ store, e.id ≠ eid := by
    rw [List.filter_eq_self]
    simp
  have hlt : (store.filter (fun e => e.id ≠ eid)).length < store.length ↔
      ¬ ∀ e ∈ store, e.id ≠ eid := by
    constructor
    · intro h hall
      rw [hiff.mpr hall] at h
      exact lt_irrefl _ h
    · intro h
      rcases Nat.lt_or_ge (store.filter (fun e => e.id ≠ eid)).length store.length with hl | hge
      · exact hl
      · exact absurd (hiff.mp (hsub.eq_of_length (le_antisymm hsub.length_le hge))) h
  by_cases hc : (store.filter (fun e => e.id ≠ eid)).length < store.length
  · have hout : deleteExpense store eid = (.noContent, store.filter (fun e => e.id ≠ eid)) := by
      rw [deleteExpense, if_pos hc]
    rw [hout]
    refine ⟨iff_of_false (by simp) (hlt.mp hc), fun h => absurd h (by simp), hsub, ?_⟩
    intro e he
    simp [List.mem_filter, he]
  · have hall : ∀ e ∈ store, e.id ≠ eid := by
      by_contra hn
      exact hc (hlt.mpr hn)
    have hout : deleteExpense store eid = (.notFound, store) := by
      rw [deleteExpense, if_neg hc]
    rw [hout]
    exact ⟨iff_of_true rfl hall, fun _ => rfl, List.Sublist.refl store,
      fun e he => iff_of_true he (hall e he)⟩

/-! ## Claim C3: counterexample and amended form -/

theorem decide_int_le_zero (n : Nat) : decide ((n : Int) ≤ 0) = !decide (0 < n) := by
  by_cases h : 0 < n
  · have h1 : ¬ ((n : Int) ≤ 0) := by omega
    simp [h, h1]
  · have h1 : (n : Int) ≤ 0 := by omega
    simp [h, h1]

theorem decide_neg_le_zero (n : Nat) : decide ((-(n : Int)) ≤ 0) = true := by
  have h : (-(n : Int)) ≤ 0 := by omega
  simp [h]

theorem decide_eq_zero_not_pos (n : Nat) : decide (n = 0) = !decide (0 < n) := by
  by_cases h : 0 < n
  · have h1 : ¬ n = 0 := by omega
    simp [h, h1]
  · have h1 : n = 0 := by omega
    simp [h, h1]

/-- C3 fails on the code: `parseInt` reads the longest leading digit run and
ignores trailing junk, so the value `"2x"` — not a positive-integer string —
parses to 2 and is not rejected. -/
theorem months_validation_counterexample :
    ¬ (windowRejected (some "2x") "3" = true ↔ specPosIntString "2x" = false) := by
  decide

theorem rejectCheck_eq_not_posIntLead (s : String) :
    rejectCheck s = !posIntLead s := by
  simp only [rejectCheck, jsParseInt, posIntLead]
  cases h : s.data.dropWhile Char.isWhitespace with
  | nil => rfl
  | cons c rest =>
    by_cases hminus : c = '-'
    · simp only [hminus, if_pos rfl]
      have hpm : ('-' : Char) = '+' ↔ False := by simp
      cases rest with
      | nil => simp
      | cons c2 r2 =>
        by_cases hd : c2.isDigit
        · simp [hd, decide_neg_le_zero]
        · simp [hd]
    · by_cases hplus : c = '+'
      · simp only [hplus, if_pos rfl]
        have hmp : ('+' : Char) = '-' ↔ False := by simp
        simp only [hmp, if_false, if_pos rfl]
        cases rest with
        | nil => simp
        | cons c2 r2 =>
          by_cases hd : c2.isDigit
          · simp [hd, decide_int_le_zero, decide_eq_zero_not_pos]
          · simp [hd]
      · simp only [if_neg hminus, if_neg hplus]
        by_cases hd : c.isDigit
        · simp [hd, decide_int_le_zero, decide_eq_zero_not_pos]
        · simp [hd]

/-- C3 amended: the recurring and tags endpoints reject the request iff the
effective `months` string (the given value, or the default `"3"` / `"2"`
when absent or empty) does not start — after optional whitespace and an
optional plus sign — with a digit run of positive value. In particular
`"abc"`, `"0"` and `"-1"` are rejected, while non-integer strings with a
positive leading digit run such as `"2x"` or `"2.5"` are accepted. -/
theorem months_rejected_iff_no_positive_lead (p : Option String) (dflt : String) :
    windowRejected p dflt = !posIntLead (effectiveMonths p dflt) := by
  rw [windowRejected, rejectCheck_eq_not_posIntLead]

/-! ## Claim C6 -/

theorem natCharsAux_congr :
    ∀ (f g n : Nat), n < f → n < g → natCharsAux f n = natCharsAux g n
  | 0, _, n, hf, _ => absurd hf (Nat.not_lt_zero n)
  | _ + 1, 0, n, _, hg => absurd hg (Nat.not_lt_zero n)
  | f + 1, g + 1, n, hf, hg => by
    by_cases h : n < 10
    · simp [natCharsAux, h]
    · have hd : n / 10 < n := Nat.div_lt_self (by omega) (by omega)
      simp only [natCharsAux, if_neg h]
      rw [natCharsAux_congr f g (n / 10) (by omega) (by omega)]

theorem natChars_lt10 {n : Nat} (h : n < 10) : natChars n = [Nat.digitChar n] := by
  simp [natChars, natCharsAux, h]

theorem natChars_ge10 {n : Nat} (h : 10 ≤ n) :
    natChars n = natChars (n / 10) ++ [Nat.digitChar (n % 10)] := by
  have h2 : ¬ n < 10 := by omega
  have hd : n / 10 < n := Nat.div_lt_self (by omega) (by omega)
  show natCharsAux (n + 1) n = _
  simp only [natCharsAux, if_neg h2]
  rw [natCharsAux_congr n (n / 10 + 1) (n / 10) hd (Nat.lt_succ_self _)]
  rfl

theorem natChars4 {n : Nat} (h1 : 1000 ≤ n) (h2 : n ≤ 9999) :
    natChars n = [Nat.digitChar (n / 1000 % 10), Nat.digitChar (n / 100 % 10),
      Nat.digitChar (n / 10 % 10), Nat.digitChar (n % 10)] := by
  have e1 : natChars n = natChars (n / 10) ++ [Nat.digitChar (n % 10)] :=
    natChars_ge10 (by omega)
  have e2 : natChars (n / 10) = natChars (n / 10 / 10) ++ [Nat.digitChar (n / 10 % 10)] :=
    natChars_ge10 (by omega)
  have e3 : natChars (n / 10 / 10) =
      natChars (n / 10 / 10 / 10) ++ [Nat.digitChar (n / 10 / 10 % 10)] :=
    natChars_ge10 (by omega)
  have e4 : natChars (n / 10 / 10 / 10) = [Nat.digitChar (n / 10 / 10 / 10)] :=
    natChars_lt10 (by omega)
  have d3 : n / 10 / 10 / 10 = n / 1000 % 10 := by omega
  have d2 : n / 10 / 10 % 10 = n / 100 % 10 := by omega
  rw [e1, e2, e3, e4, d3, d2]
  simp

theorem pad2_digits {m : Nat} (h1 : 1 ≤ m) (h2 : m ≤ 12) :
    (pad2 m).data = [Nat.digitChar (m / 10 % 10), Nat.digitChar (m % 10)] := by
  interval_cases m <;> decide

theorem strData_append (s t : String) : (s ++ t).data = s.data ++ t.data := by
  cases s
  cases t
  rfl

theorem monthKey_data {d : Date} (hy1 : 1000 ≤ d.year) (hy2 : d.year ≤ 9999)
    (hm1 : 1 ≤ d.month) (hm2 : d.month ≤ 12) :
    (monthKey d).data =
      [Nat.digitChar (d.year.natAbs / 1000 % 10), Nat.digitChar (d.year.natAbs / 100 % 10),
       Nat.digitChar (d.year.natAbs / 10 % 10), Nat.digitChar (d.year.natAbs % 10), '-',
       Nat.digitChar (d.month / 10 % 10), Nat.digitChar (d.month % 10)] := by
  have hna1 : 1000 ≤ d.year.natAbs := by omega
  have hna2 : d.year.natAbs ≤ 9999 := by omega
  have hnn : ¬ d.year < 0 := by omega
  rw [monthKey, strData_append, strData_append, intStr, if_neg hnn]
  show natChars d.year.natAbs ++ ['-'] ++ (pad2 d.month).data = _
  rw [natChars4 hna1 hna2, pad2_digits hm1 hm2]
  simp

theorem charList_cons_lt_iff {a b : Char} {l1 l2 : List Char} :
    (a :: l1 : List Char) < (b :: l2) ↔ a < b ∨ (a = b ∧ l1 < l2) := by
  show List.Lex (· < ·) (a :: l1) (b :: l2) ↔ _
  constructor
  · intro h
    cases h with
    | cons h => exact Or.inr ⟨rfl, h⟩
    | rel h => exact Or.inl h
  · rintro (h | ⟨rfl, h⟩)
    · exact List.Lex.rel h
    · exact List.Lex.cons h

theorem charList_nil_lt_nil : ((([] : List Char) < [])) ↔ False :=
  iff_of_false (List.Lex.not_nil_right _ _) id

theorem dchar_lt_bounded :
    ∀ x, x < 10 → ∀ y, y < 10 → ((Nat.digitChar x < Nat.digitChar y) ↔ x < y) := by
  decide

theorem dchar_eq_bounded :
    ∀ x, x < 10 → ∀ y, y < 10 → ((Nat.digitChar x = Nat.digitChar y) ↔ x = y) := by
  decide

theorem dc_lt_mod (x y : Nat) :
    (Nat.digitChar (x % 10) < Nat.digitChar (y % 10)) ↔ x % 10 < y % 10 :=
  dchar_lt_bounded _ (Nat.mod_lt _ (by omega)) _ (Nat.mod_lt _ (by omega))

theorem dc_eq_mod (x y : Nat) :
    (Nat.digitChar (x % 10) = Nat.digitChar (y % 10)) ↔ x % 10 = y % 10 :=
  dchar_eq_bounded _ (Nat.mod_lt _ (by omega)) _ (Nat.mod_lt _ (by omega))

/-- C6: the monthly report's keys are sorted ascending in the string order,
and on valid `YYYY-MM` keys (4-digit year, month 1-12) the string order
coincides with chronological order of (year, month). -/
theorem monthly_keys_sorted_and_lex_is_chronological
    (exps : List Expense) (d1 d2 : Date)
    (h1 : 1000 ≤ d1.year) (h2 : d1.year ≤ 9999) (h3 : 1 ≤ d1.month) (h4 : d1.month ≤ 12)
    (h5 : 1000 ≤ d2.year) (h6 : d2.year ≤ 9999) (h7 : 1 ≤ d2.month) (h8 : d2.month ≤ 12) :
    ((monthlyReport exps).map Prod.fst).Sorted (· ≤ ·) ∧
    (monthKey d1 < monthKey d2 ↔
      (d1.year < d2.year ∨ (d1.year = d2.year ∧ d1.month < d2.month))) := by
  constructor
  · have hs : List.Sorted (fun p q => p.1 ≤ q.1) (monthlyReport exps) :=
      List.sorted_insertionSort _ _
    show ((monthlyReport exps).map Prod.fst).Pairwise (· ≤ ·)
    exact (List.pairwise_map).mpr hs
  · rw [String.lt_iff_toList_lt]
    show (monthKey d1).data < (monthKey d2).data ↔ _
    rw [monthKey_data h1 h2 h3 h4, monthKey_data h5 h6 h7 h8]
    simp only [charList_cons_lt_iff, charList_nil_lt_nil, dc_lt_mod, dc_eq_mod,
      lt_self_iff_false, and_false, or_false, false_or, true_and, eq_self_iff_true]
    have r1 : d1.year.natAbs =
        1000 * (d1.year.natAbs / 1000 % 10) + 100 * (d1.year.natAbs / 100 % 10) +
          10 * (d1.year.natAbs / 10 % 10) + d1.year.natAbs % 10 := by omega
    have r2 : d2.year.natAbs =
        1000 * (d2.year.natAbs / 1000 % 10) + 100 * (d2.year.natAbs / 100 % 10) +
          10 * (d2.year.natAbs / 10 % 10) + d2.year.natAbs % 10 := by omega
    omega

/-- Witness for C6 at a concrete report and pair of valid keys. -/
theorem monthly_keys_witness :
    ((monthlyReport [⟨"1", ⟨2024, 1, 5⟩, 10, "Food", "Coffee", ""⟩]).map
        Prod.fst).Sorted (· ≤ ·) ∧
    (monthKey ⟨2024, 1, 1⟩ < monthKey ⟨2024, 2, 1⟩ ↔
      ((2024 : Int) < 2024 ∨ ((2024 : Int) = 2024 ∧ (1 : Nat) < 2))) :=
  monthly_keys_sorted_and_lex_is_chronological
    [⟨"1", ⟨2024, 1, 5⟩, 10, "Food", "Coffee", ""⟩] ⟨2024, 1, 1⟩ ⟨2024, 2, 1⟩
    (by decide) (by decide) (by decide) (by decide)
    (by decide) (by decide) (by decide) (by decide)

/-- Witness for C7 at the spec's worked example (Coffee recurs in January
and February 2024; window of 3 months as of mid-March 2024). -/
theorem tags_superset_witness :
    (⟨"Coffee", "Food", 10⟩ : Template) ∈
      tags [⟨"1", ⟨2024, 1, 5⟩, 10, "Food", "Coffee", ""⟩,
            ⟨"2", ⟨2024, 2, 5⟩, 10, "Food", "Coffee", ""⟩,
            ⟨"3", ⟨2024, 3, 1⟩, 5, "Food", "Snack", ""⟩] ⟨2024, 3, 15⟩ 3 :=
  (tags_nodup_and_superset_of_recurring
    [⟨"1", ⟨2024, 1, 5⟩, 10, "Food", "Coffee", ""⟩,
     ⟨"2", ⟨2024, 2, 5⟩, 10, "Food", "Coffee", ""⟩,
     ⟨"3", ⟨2024, 3, 1⟩, 5, "Food", "Snack", ""⟩] ⟨2024, 3, 15⟩ 3).2
    ⟨"Coffee", "Food", 10⟩ (by decide)

end ExpensesApp
